import Mathlib

/- Shallow embedding of the `inrith` interval-arithmetic library
   (files src/inrith/interval.py, utils.py, interval_union.py, math.py,
   interval_like.py and the older parallel copies src/src/interval.py,
   src/src/union.py).

   Modeling conventions:
   - Python numeric values (int / float, including the IEEE specials) are
     modeled by one type `ExtQ` = ℚ ∪ {-∞, +∞, NaN}.  Arithmetic is exact
     (no rounding; all concrete inputs in the development are small exactly
     representable numbers), the int/float *type* distinction of Python is
     not modeled, and negative zero is identified with zero.
     Transcendental functions (math.log, math.cos) are uninterpreted
     function parameters of the definitions that use them.
   - Python exceptions are modeled by `Except PyErr`; an `Except.error` value
     is a raised exception, `Except.ok` a normal return.
   - Python `set` iteration order is unspecified; it is modeled as
     first-occurrence (insertion) order.  `sorted` (a stable sort) is modeled
     by a stable insertion sort.  Every concrete evaluation proved below was
     checked to be independent of the tie order between equal sort keys.
-/

namespace Inrith

/-- Python numeric value: a rational (exact model of int/float), one of the
two IEEE infinities, or NaN. -/
inductive ExtQ where
  | nan : ExtQ
  | ninf : ExtQ
  | fin : ℚ → ExtQ
  | pinf : ExtQ
deriving DecidableEq

/-- Python `x <= y` on numbers (IEEE semantics: any comparison with NaN is
false; -inf <= everything; everything <= +inf). -/
def ele : ExtQ → ExtQ → Bool
  | .nan, _ => false
  | _, .nan => false
  | .ninf, _ => true
  | _, .ninf => false
  | _, .pinf => true
  | .pinf, _ => false
  | .fin p, .fin q => decide (p ≤ q)

/-- Python `x < y` on numbers (IEEE semantics). -/
def elt : ExtQ → ExtQ → Bool
  | .nan, _ => false
  | _, .nan => false
  | .ninf, .ninf => false
  | .ninf, _ => true
  | _, .ninf => false
  | .pinf, _ => false
  | _, .pinf => true
  | .fin p, .fin q => decide (p < q)

/-- Python `x == y` on numbers (NaN is not equal to anything, including
itself). -/
def eeq : ExtQ → ExtQ → Bool
  | .ninf, .ninf => true
  | .pinf, .pinf => true
  | .fin p, .fin q => decide (p = q)
  | _, _ => false

/-- Python `x > y` on numbers. -/
def egt (x y : ExtQ) : Bool := elt y x

/-- Python `min` over a nonempty tuple (first element plus rest): keeps the
current result and replaces it when a later item compares `<` to it.  This
reproduces CPython's behavior, including its treatment of NaN. -/
def pymin (a : ExtQ) (l : List ExtQ) : ExtQ :=
  l.foldl (fun acc x => if elt x acc then x else acc) a

/-- Python `max` over a nonempty tuple, CPython semantics. -/
def pymax (a : ExtQ) (l : List ExtQ) : ExtQ :=
  l.foldl (fun acc x => if elt acc x then x else acc) a

/-- The Python exceptions that the embedded code can raise. -/
inductive PyErr where
  | assertionError : PyErr
  | typeError : PyErr
  | valueError : PyErr
  | zeroDivisionError : PyErr
  | nameError : PyErr
deriving DecidableEq

/-- Endpoint-openness mode `Endnotes` (interval.py lines 24-30). -/
inductive Endnotes where
  | OPENED : Endnotes
  | CLOSED : Endnotes
  | RIGHT_OPEN : Endnotes
  | LEFT_OPEN : Endnotes
  | AUTO : Endnotes
deriving DecidableEq

/-- The `Interval` value: bounds plus per-side openness flags
(interval.py class Interval). -/
structure Interval where
  inf : ExtQ
  sup : ExtQ
  left_open : Bool
  right_open : Bool
deriving DecidableEq

/-- `abs(v) == float("inf")` -/
def isInfinite : ExtQ → Bool
  | .ninf => true
  | .pinf => true
  | _ => false

/-- `Interval.__handle_endnotes` (src/inrith/interval.py lines 223-232):
resolves the mode into the pair (left_open, right_open).  `AUTO` opens a side
iff its bound has absolute value infinity.  The `KeyError` branch for an
unrecognized mode is unreachable here because `Endnotes` is modeled as the
exact five-valued enumeration. -/
def handleEndnotes (inf sup : ExtQ) : Endnotes → Bool × Bool
  | .AUTO => (isInfinite inf, isInfinite sup)
  | .OPENED => (true, true)
  | .CLOSED => (false, false)
  | .RIGHT_OPEN => (false, true)
  | .LEFT_OPEN => (true, false)

/-- `Interval.empty` (interval.py lines 118-120) on explicit fields:
`(left_open or right_open) and inf == sup`. -/
def emptyF (inf sup : ExtQ) (lo ro : Bool) : Bool :=
  (lo || ro) && eeq inf sup

/-- `Interval.__init__` (src/inrith/interval.py lines 71-98), translated
line by line.
* `assert infimum <= supremum` fails with AssertionError when the comparison
  is not true (hence also when a bound is NaN).
* The int/float coercion (lines 85-87) is a no-op in this model, where all
  numbers live in one type.
* If either keyword flag is omitted (`None`), BOTH flags come from the mode;
  otherwise the two explicit flags are used.
* Post-normalization (lines 95-98): `left_open = left_open >= left_bounded()`
  where `left_bounded() = inf > -inf or empty()` and Python `b >= c` on bools
  is `b or not c`; then the same for the right side, with `empty()` now seeing
  the already-updated left flag. -/
def intervalNew (inf sup : ExtQ) (mode : Endnotes) (lo ro : Option Bool) :
    Except PyErr Interval :=
  if ele inf sup then
    let (l0, r0) :=
      match lo, ro with
      | some l, some r => (l, r)
      | _, _ => handleEndnotes inf sup mode
    let leftBounded0 := egt inf .ninf || emptyF inf sup l0 r0
    let l1 := l0 || !leftBounded0
    let rightBounded1 := elt sup .pinf || emptyF inf sup l1 r0
    let r1 := r0 || !rightBounded1
    Except.ok ⟨inf, sup, l1, r1⟩
  else
    Except.error .assertionError

/-- `Common.EMPTY = Interval(0, 0, Endnotes.OPENED)` (interval.py line 237). -/
def EMPTY : Interval := ⟨.fin 0, .fin 0, true, true⟩

/-- `Common.REALS = Interval(float("-inf"), float("inf"))`
(interval.py line 238). -/
def REALS : Interval := ⟨.ninf, .pinf, true, true⟩

/-- `Interval.as_closed` (interval.py lines 110-112):
`Interval(self.inf, self.sup, Endnotes.CLOSED)` — goes through the
constructor again, so normalization reapplies. -/
def asClosed (i : Interval) : Except PyErr Interval :=
  intervalNew i.inf i.sup .CLOSED none none

/-- `Interval.__contains__` (interval.py lines 144-151):
`inf <= value <= sup`, minus an endpoint equal to `value` whose side is
open. -/
def icontains (i : Interval) (v : ExtQ) : Bool :=
  (ele i.inf v && ele v i.sup) &&
    !(eeq v i.inf && i.left_open) && !(eeq v i.sup && i.right_open)

/-- `Interval.__le__`, the subset test (interval.py lines 210-218): each of
the two endpoints of `self` is a member of `other`, or matches `other`'s
corresponding endpoint in both value and openness flag. -/
def ileq (a b : Interval) : Bool :=
  (icontains b a.inf || (eeq a.inf b.inf && (a.left_open == b.left_open))) &&
  (icontains b a.sup || (eeq a.sup b.sup && (a.right_open == b.right_open)))

/-- `Interval.__iter__` (interval.py lines 220-221): yields the interval
itself, once. -/
def intervalIter (i : Interval) : List Interval := [i]

/-- An Interval the constructor can actually produce never carries NaN
bounds: `assert infimum <= supremum` is false on NaN.  Theorems quantifying
over "all Intervals" use this as the well-formedness hypothesis. -/
def NoNan (i : Interval) : Prop := i.inf ≠ ExtQ.nan ∧ i.sup ≠ ExtQ.nan

/-- Python float/int addition.  Never raises; `inf + (-inf)` is NaN. -/
def eadd : ExtQ → ExtQ → Except PyErr ExtQ
  | .nan, _ => .ok .nan
  | _, .nan => .ok .nan
  | .ninf, .pinf => .ok .nan
  | .pinf, .ninf => .ok .nan
  | .ninf, _ => .ok .ninf
  | _, .ninf => .ok .ninf
  | .pinf, _ => .ok .pinf
  | _, .pinf => .ok .pinf
  | .fin p, .fin q => .ok (.fin (p + q))

/-- Python float/int subtraction.  Never raises; `inf - inf` is NaN. -/
def esub : ExtQ → ExtQ → Except PyErr ExtQ
  | .nan, _ => .ok .nan
  | _, .nan => .ok .nan
  | .ninf, .ninf => .ok .nan
  | .pinf, .pinf => .ok .nan
  | .ninf, _ => .ok .ninf
  | .pinf, _ => .ok .pinf
  | _, .ninf => .ok .pinf
  | _, .pinf => .ok .ninf
  | .fin p, .fin q => .ok (.fin (p - q))

/-- Python float/int multiplication.  Never raises; `0 * inf` is NaN. -/
def emul : ExtQ → ExtQ → Except PyErr ExtQ
  | .nan, _ => .ok .nan
  | _, .nan => .ok .nan
  | .ninf, .ninf => .ok .pinf
  | .ninf, .pinf => .ok .ninf
  | .pinf, .ninf => .ok .ninf
  | .pinf, .pinf => .ok .pinf
  | .ninf, .fin q => .ok (if q = 0 then .nan else if q < 0 then .pinf else .ninf)
  | .pinf, .fin q => .ok (if q = 0 then .nan else if q < 0 then .ninf else .pinf)
  | .fin p, .ninf => .ok (if p = 0 then .nan else if p < 0 then .pinf else .ninf)
  | .fin p, .pinf => .ok (if p = 0 then .nan else if p < 0 then .ninf else .pinf)
  | .fin p, .fin q => .ok (.fin (p * q))

/-- Python true division.  Raises ZeroDivisionError whenever the divisor is
(numeric) zero, regardless of the dividend (CPython checks the divisor
first); `inf / inf` is NaN; a finite number divided by an infinity is zero
(signed zero identified with zero). -/
def ediv : ExtQ → ExtQ → Except PyErr ExtQ
  | x, .fin q =>
    if q = 0 then .error .zeroDivisionError
    else
      match x with
      | .nan => .ok .nan
      | .ninf => .ok (if q < 0 then .pinf else .ninf)
      | .pinf => .ok (if q < 0 then .ninf else .pinf)
      | .fin p => .ok (.fin (p / q))
  | .nan, _ => .ok .nan
  | _, .nan => .ok .nan
  | .ninf, .ninf => .ok .nan
  | .ninf, .pinf => .ok .nan
  | .pinf, .ninf => .ok .nan
  | .pinf, .pinf => .ok .nan
  | .fin _, .ninf => .ok (.fin 0)
  | .fin _, .pinf => .ok (.fin 0)

/-- `bin_op` (src/inrith/utils.py lines 11-33): apply the scalar operator to
the 4 combinations `itertools.product(lhs.infsup(), rhs.infsup())` (in that
order, left to right, so the first raised exception propagates), then build
`Interval(min(vals), max(vals), left_open=lhs.left_open or rhs.left_open,
right_open=lhs.right_open or rhs.right_open)`. -/
def binOpWrap (f : ExtQ → ExtQ → Except PyErr ExtQ) (lhs rhs : Interval) :
    Except PyErr Interval := do
  let v1 ← f lhs.inf rhs.inf
  let v2 ← f lhs.inf rhs.sup
  let v3 ← f lhs.sup rhs.inf
  let v4 ← f lhs.sup rhs.sup
  intervalNew (pymin v1 [v2, v3, v4]) (pymax v1 [v2, v3, v4]) .AUTO
    (some (lhs.left_open || rhs.left_open))
    (some (lhs.right_open || rhs.right_open))

/-- `Interval.__add__` (interval.py lines 172-173). -/
def pyAdd (a b : Interval) : Except PyErr Interval := binOpWrap eadd a b

/-- `Interval.__sub__` (interval.py lines 175-176). -/
def pySub (a b : Interval) : Except PyErr Interval := binOpWrap esub a b

/-- `Interval.__mul__` (interval.py lines 178-179). -/
def pyMul (a b : Interval) : Except PyErr Interval := binOpWrap emul a b

/-- `Interval.__truediv__` (interval.py lines 181-182). -/
def pyDiv (a b : Interval) : Except PyErr Interval := binOpWrap ediv a b

/-- `ifunc` (src/inrith/utils.py lines 36-53): evaluate the unary function at
the two endpoints (infimum first), then
`Interval(min(vals), max(vals), left_open=interval.left_open,
right_open=interval.right_open)`. -/
def ifuncWrap (f : ExtQ → Except PyErr ExtQ) (i : Interval) :
    Except PyErr Interval := do
  let v1 ← f i.inf
  let v2 ← f i.sup
  intervalNew (pymin v1 [v2]) (pymax v1 [v2]) .AUTO
    (some i.left_open) (some i.right_open)

/-- Python `value ** n` for an integer exponent `n` (exact model: the
int-vs-float result distinction and float rounding are ignored).
`0 ** negative` raises ZeroDivisionError; anything to the 0th power is 1
(including NaN and the infinities, as in CPython); an infinity to a negative
power is (signed) zero, identified with 0. -/
def ezpow (x : ExtQ) (n : ℤ) : Except PyErr ExtQ :=
  match x with
  | .fin q =>
    if q = 0 then
      if n = 0 then .ok (.fin 1)
      else if 0 < n then .ok (.fin 0)
      else .error .zeroDivisionError
    else .ok (.fin (q ^ n))
  | .pinf =>
    if n = 0 then .ok (.fin 1)
    else if 0 < n then .ok .pinf
    else .ok (.fin 0)
  | .ninf =>
    if n = 0 then .ok (.fin 1)
    else if 0 < n then .ok (if n % 2 = 0 then .pinf else .ninf)
    else .ok (.fin 0)
  | .nan => if n = 0 then .ok (.fin 1) else .ok .nan

/-- Python `max(x, y)` of exactly two values (CPython: starts from `x`,
replaces it when `y > x`). -/
def pymax2 (x y : ExtQ) : ExtQ := if elt x y then y else x

/-- `Interval.__pow__` (src/inrith/interval.py lines 187-190): if the
interval straddles zero (`inf < 0 and sup > 0`) and the exponent is even
(`other % 2 == 0`), return `Interval(0, max(inf**other, sup**other))`
(default AUTO endnotes); otherwise apply `ifunc(lambda val: val**other)`. -/
def pyPow (i : Interval) (n : ℤ) : Except PyErr Interval :=
  if elt i.inf (.fin 0) && elt (.fin 0) i.sup && (n % 2 == 0) then do
    let a ← ezpow i.inf n
    let b ← ezpow i.sup n
    intervalNew (.fin 0) (pymax2 a b) .AUTO none none
  else
    ifuncWrap (fun v => ezpow v n) i

/-- `EndpointType` (interval.py lines 41-44). -/
inductive EndpointType where
  | INF : EndpointType
  | SUP : EndpointType
deriving DecidableEq

/-- `Endpoint` dataclass (interval.py lines 47-65): a boundary value tagged
with its kind.  Its hash/equality is the pair (value, type). -/
structure Endpoint where
  value : ExtQ
  type : EndpointType
deriving DecidableEq

/-- `Interval.endpoints` (interval.py lines 100-104). -/
def endpointsOf (i : Interval) : List Endpoint :=
  [⟨i.inf, .INF⟩, ⟨i.sup, .SUP⟩]

/-- Python `set` deduplication, modeled with first-occurrence (insertion)
order — CPython's actual set iteration order is unspecified; every concrete
result proved below is independent of that order. -/
def dedup {α : Type} [DecidableEq α] (l : List α) : List α :=
  l.foldl (fun acc x => if acc.contains x then acc else acc ++ [x]) []

/-- One insertion step of a stable sort on `Endpoint.value` using Python
`<`: a new element is placed before the first strictly greater key, hence
after all existing equal keys. -/
def insertByValue (e : Endpoint) : List Endpoint → List Endpoint
  | [] => [e]
  | x :: xs => if elt e.value x.value then e :: x :: xs else x :: insertByValue e xs

/-- `IntervalUnion.__get_endpoints` (src/inrith/interval_union.py lines
49-53): collect the endpoints of all intervals into a set, then
`sorted(..., key=attrgetter("value"))` (a stable sort on the value). -/
def getEndpoints (intervals : List Interval) : List Endpoint :=
  (dedup (intervals.flatMap endpointsOf)).foldl
    (fun acc e => insertByValue e acc) []

/-- One pass of the sweep in `IntervalUnion.__init__` (interval_union.py
lines 24-37) for a single endpoint.  The state is (emitted intervals,
`curr_inf`).  The membership count re-closes every deduplicated interval
(`endpoint.value in i.as_closed()`).  When the count is exactly 1, an
infimum marker records `curr_inf` and a supremum marker emits
`Interval(curr_inf, endpoint.value)` (with default AUTO endnotes) —
`curr_inf` being Python `None` there would make the constructor's
`None <= value` comparison raise TypeError.  Finally, if `curr_inf` is None
it is (re)set to the endpoint's value. -/
def sweepStep (uniqs : List Interval) (st : List Interval × Option ExtQ)
    (ep : Endpoint) : Except PyErr (List Interval × Option ExtQ) := do
  let cnt ← uniqs.foldlM (fun (n : Nat) i => do
    let ci ← asClosed i
    pure (n + (if icontains ci ep.value then 1 else 0))) 0
  let (ivs, curr) := st
  let (ivs, curr) ←
    if cnt = 1 then
      match ep.type with
      | .INF => pure (ivs, some ep.value)
      | .SUP =>
        match curr with
        | none => Except.error .typeError
        | some c => do
          let iv ← intervalNew c ep.value .AUTO none none
          pure (ivs ++ [iv], (none : Option ExtQ))
    else pure (ivs, curr)
  let curr := match curr with | none => some ep.value | some c => some c
  pure (ivs, curr)

/-- `IntervalUnion.__init__` (src/inrith/interval_union.py lines 15-37):
re-close every input interval, deduplicate them (a Python set keyed on the
4-field hash/equality), collect and sort the endpoints, then sweep left to
right producing the stored interval list. -/
def unionInit (input : List Interval) : Except PyErr (List Interval) := do
  let closed ← input.mapM asClosed
  let uniqs := dedup closed
  let eps := getEndpoints uniqs
  let st ← eps.foldlM (sweepStep uniqs) ([], none)
  pure st.1

/-- The `IntervalUnion` object: it owns the list built by `unionInit`. -/
structure IntervalUnion where
  intervals : List Interval
deriving DecidableEq

/-- `IntervalUnion.__iter__` (interval_union.py lines 42-44). -/
def unionIter (u : IntervalUnion) : List Interval := u.intervals

/-- `IntervalUnion.__getitem__` (src/inrith/interval_union.py lines 46-47):
the body is `return self.intervals[i]`, but the method's parameter is named
`index` and no name `i` is in scope — every call raises NameError, for any
union and any index. -/
def unionGetItem (_ : IntervalUnion) (_ : ℤ) : Except PyErr Interval :=
  Except.error .nameError

/-- `math.log(x, base)` (CPython): ValueError on a non-positive or -inf
argument and on a non-positive base; base 1 makes the implicit
`log(x)/log(1)` divide by zero; `log(+inf, base) = +inf` for base > 1 and
`-inf` for 0 < base < 1; NaN propagates.  The rational-to-rational core is
the uninterpreted parameter `logf` (value first, then base). -/
def mathLog (logf : ℚ → ℚ → ℚ) (x : ExtQ) (base : ℚ) : Except PyErr ExtQ :=
  if base ≤ 0 then .error .valueError
  else if base = 1 then .error .zeroDivisionError
  else
    match x with
    | .nan => .ok .nan
    | .ninf => .error .valueError
    | .pinf => .ok (if 1 < base then .pinf else .ninf)
    | .fin q => if 0 < q then .ok (.fin (logf q base)) else .error .valueError

/-- `Interval.function` (src/src/interval.py lines 114-124): evaluate the
function at the two endpoints (infimum first), then
`Interval(min(vals), max(vals), left_open=self.left_open,
right_open=self.right_open)`.  Identical in substance to `ifunc`; the src/src
constructor's AUTO clause (`inf == -float("inf")` / `sup == float("inf")`
instead of inrith's `abs(bound) == inf`) is irrelevant here because explicit
openness flags are passed. -/
def srcFunction (f : ExtQ → Except PyErr ExtQ) (i : Interval) :
    Except PyErr Interval := ifuncWrap f i

/-- `Interval.log` (src/src/interval.py lines 126-133), translated line by
line:
* if `inf <= 0 and sup > 0`: return
  `Interval(float("inf") * math.copysign(1., 1 - base), math.log(sup, base))`
  — i.e. -inf for base > 1, +inf for base < 1 (copysign gives +1 on 0);
  `math.log(sup, base)` is evaluated before the constructor runs, so its
  exceptions propagate first;
* if `sup <= 0`: return `Common.EMPTY`;
* else: `self.function(math.log, base)` (here `inf > 0` holds).
The src/src AUTO clause agrees with the modeled (inrith) one on every value
this method can pass to the constructor. -/
def intervalLog (logf : ℚ → ℚ → ℚ) (base : ℚ) (i : Interval) :
    Except PyErr Interval :=
  if ele i.inf (.fin 0) && egt i.sup (.fin 0) then do
    let l ← mathLog logf i.sup base
    intervalNew (if 1 - base < 0 then .ninf else .pinf) l .AUTO none none
  else if ele i.sup (.fin 0) then .ok EMPTY
  else srcFunction (fun v => mathLog logf v base) i

/-- The lambda inside `log` (src/inrith/math.py lines 16-18):
`math.log(x, base) if x > 0 else math.copysign(1., base - 1)*math.inf`.
Note the sign argument is `base - 1` (so for base > 1 this is **plus**
infinity; copysign gives +1 on 0). -/
def inrithLogLam (logf : ℚ → ℚ → ℚ) (base : ℚ) (x : ExtQ) :
    Except PyErr ExtQ :=
  if egt x (.fin 0) then mathLog logf x base
  else .ok (if base - 1 < 0 then .ninf else .pinf)

/-- `func = ifunc(lambda x, base: ...)` applied to one interval, inside
`log` (src/inrith/math.py lines 16-20). -/
def inrithLogCore (logf : ℚ → ℚ → ℚ) (base : ℚ) (i : Interval) :
    Except PyErr Interval :=
  ifuncWrap (inrithLogLam logf base) i

/-- `log` (src/inrith/math.py lines 12-22) called on a single `Interval`:
iterating the copied Interval yields itself once, `func(i, base)` is
computed, and then the write-back `i_cpy[idx] = ...` raises TypeError
because class Interval (src/inrith/interval.py) defines no `__setitem__`. -/
def inrithLog (logf : ℚ → ℚ → ℚ) (base : ℚ) (i : Interval) :
    Except PyErr Interval := do
  let _ ← inrithLogCore logf base i
  Except.error .typeError

/-- `math.cos` on a Python number: ValueError on an infinity, NaN
propagates, the rational core is the uninterpreted parameter `cosf`. -/
def mathCos (cosf : ℚ → ℚ) : ExtQ → Except PyErr ExtQ
  | .nan => .ok .nan
  | .ninf => .error .valueError
  | .pinf => .error .valueError
  | .fin q => .ok (.fin (cosf q))

/-- `cos` (src/inrith/math.py lines 25-40) called on a single `Interval`:
`i_cpy[idx] = func(i)` raises TypeError (Interval has no `__setitem__`)
right after `func(i)` is evaluated, before the `next_max`/`next_min`
widening lines are ever reached. -/
def inrithCos (cosf : ℚ → ℚ) (i : Interval) : Except PyErr Interval := do
  let _ ← ifuncWrap (mathCos cosf) i
  Except.error .typeError

/-- Python `0.5*PI - interval_like` (src/inrith/math.py line 45):
`float.__sub__` returns NotImplemented on an `Interval` and class Interval
(src/inrith/interval.py) defines no `__rsub__` (only `__rpow__`), so the
expression raises TypeError for every Interval argument. -/
def floatSubInterval (_ : ExtQ) (_ : Interval) : Except PyErr Interval :=
  Except.error .typeError

/-- `sin` (src/inrith/math.py lines 43-45): `return cos(0.5*PI - interval_like)`.
`piv` is the float value of `math.pi` (uninterpreted). -/
def inrithSin (cosf : ℚ → ℚ) (piv : ExtQ) (i : Interval) :
    Except PyErr Interval := do
  let hp ← emul (ExtQ.fin (1/2)) piv
  let y ← floatSubInterval hp i
  inrithCos cosf y

instance {ε α : Type} [DecidableEq ε] [DecidableEq α] : DecidableEq (Except ε α) :=
  fun x y =>
    match x, y with
    | .ok a, .ok b =>
      if h : a = b then .isTrue (by rw [h])
      else .isFalse (fun hc => h (Except.ok.inj hc))
    | .error e, .error f =>
      if h : e = f then .isTrue (by rw [h])
      else .isFalse (fun hc => h (Except.error.inj hc))
    | .ok _, .error _ => .isFalse (fun hc => Except.noConfusion hc)
    | .error _, .ok _ => .isFalse (fun hc => Except.noConfusion hc)

/-- `Interval(a, b)` for finite `a <= b` with default `AUTO` endnotes: both
sides closed.  Used to write the concrete intervals of the test claims. -/
def mkClosed (a b : ℚ) : Interval := ⟨.fin a, .fin b, false, false⟩

-- Order facts about the Python comparisons on non-NaN values.

lemma eeq_true_iff (x y : ExtQ) : eeq x y = true ↔ (x = y ∧ x ≠ .nan) := by
  cases x <;> cases y <;> simp [eeq]

lemma ele_nonnan {x y : ExtQ} (h : ele x y = true) : x ≠ .nan ∧ y ≠ .nan := by
  cases x <;> cases y <;> simp_all [ele]

lemma ele_refl {x : ExtQ} (h : x ≠ .nan) : ele x x = true := by
  cases x <;> simp_all [ele]

lemma ele_antisymm {x y : ExtQ} (h1 : ele x y = true) (h2 : ele y x = true) :
    x = y := by
  cases x <;> cases y <;> simp_all [ele]
  exact le_antisymm h1 h2

lemma ele_trans {x y z : ExtQ} (h1 : ele x y = true) (h2 : ele y z = true) :
    ele x z = true := by
  cases x <;> cases y <;> cases z <;> simp_all [ele]
  exact le_trans h1 h2

lemma elt_iff (x y : ExtQ) : elt x y = true ↔ (ele x y = true ∧ eeq x y = false) := by
  cases x <;> cases y <;> simp [elt, ele, eeq]
  exact lt_iff_le_and_ne.trans (by simp)

lemma ele_elt_trans {x y z : ExtQ} (h1 : ele x y = true) (h2 : elt y z = true) :
    ele x z = true := by
  cases x <;> cases y <;> cases z <;> simp_all [ele, elt]
  exact le_of_lt (lt_of_le_of_lt h1 h2)

lemma elt_ele_trans {x y z : ExtQ} (h1 : elt x y = true) (h2 : ele y z = true) :
    ele x z = true := by
  cases x <;> cases y <;> cases z <;> simp_all [ele, elt]
  exact le_of_lt (lt_of_lt_of_le h1 h2)

lemma ele_total {x y : ExtQ} (hx : x ≠ .nan) (hy : y ≠ .nan) :
    ele x y = true ∨ ele y x = true := by
  cases x <;> cases y <;> simp_all [ele]
  exact le_total _ _

/-- C1.  Claim: constructing an IntervalUnion from `[-1,2]` and `[1,2]`
yields `[[-1,2]]`; from `[0,1]` and `[2,3]` yields `[[0,1],[2,3]]`; from
`[0,3],[1,2],[2,4]` yields `[[0,4]]`.  Evaluating the code: the second and
third examples hold, but the first yields the EMPTY sequence — the shared
supremum 2 belongs to both (closed) inputs, so its membership count is 2,
never 1, and the sweep never emits the open run started at -1. -/
theorem c1_union_reduction_eval :
    unionInit [mkClosed (-1) 2, mkClosed 1 2] = .ok []
    ∧ unionInit [mkClosed 0 1, mkClosed 2 3] = .ok [mkClosed 0 1, mkClosed 2 3]
    ∧ unionInit [mkClosed 0 3, mkClosed 1 2, mkClosed 2 4] = .ok [mkClosed 0 4] := by
  decide

/-- C8.  Claim: IntervalUnion construction is idempotent.  Evaluating the
code at the collection `[0,1],[2,3],[2,4]`: the first construction yields
`[[0,1],[1,4]]` (after emitting `[0,1]` the sweep unconditionally restarts
the run at the just-closed supremum 1), and re-running construction on that
output yields `[[0,4]]` — a different sequence, so idempotence fails. -/
theorem c8_idempotence_eval :
    unionInit [mkClosed 0 1, mkClosed 2 3, mkClosed 2 4]
      = .ok [mkClosed 0 1, mkClosed 1 4]
    ∧ unionInit [mkClosed 0 1, mkClosed 1 4] = .ok [mkClosed 0 4]
    ∧ [mkClosed 0 1, mkClosed 1 4] ≠ [mkClosed 0 4] := by
  decide

/-- C7.  Claim: Interval and IntervalUnion both support iteration, indexed
read and indexed assignment.  Evaluating the code: iteration over an
Interval does yield the interval itself once, but `IntervalUnion.__getitem__`
raises NameError on every call (its body reads the undefined name `i`
instead of the parameter `index`); moreover neither class defines
`__setitem__` (or Interval `__getitem__`) at all. -/
theorem c7_interval_like_eval :
    (∀ i : Interval, intervalIter i = [i])
    ∧ (∀ (u : IntervalUnion) (k : ℤ), unionGetItem u k = .error .nameError) :=
  ⟨fun _ => rfl, fun _ _ => rfl⟩

/-- C9.  Claim: `sin(x)` equals `cos(pi/2 - x)` with cos's widening
correction.  Evaluating the code: `0.5*PI - interval_like` raises TypeError
for every Interval argument (float.__sub__ returns NotImplemented and class
Interval defines no `__rsub__`), so `sin` raises before `cos` ever runs —
for any cos implementation, any value of pi, and any interval. -/
theorem c9_sin_always_raises (cosf : ℚ → ℚ) (piv : ExtQ) (i : Interval) :
    inrithSin cosf piv i = .error .typeError := by
  cases piv <;> rfl

lemma ediv_zero_divisor (x : ExtQ) :
    ediv x (.fin 0) = .error .zeroDivisionError := by
  cases x <;> simp [ediv]

lemma ediv_cases (x y : ExtQ) :
    (∃ v, ediv x y = .ok v) ∨ ediv x y = .error .zeroDivisionError := by
  cases y with
  | fin q =>
    by_cases hq : q = 0
    · right; subst hq; exact ediv_zero_divisor x
    · left; cases x <;> simp [ediv, hq]
  | nan => left; cases x <;> simp [ediv]
  | ninf => left; cases x <;> simp [ediv]
  | pinf => left; cases x <;> simp [ediv]

/-- C10.  Interval division is not guarded against a zero divisor: whenever
an endpoint of the divisor interval is 0, one of the four pointwise
divisions computed by `bin_op` is a division by zero, and CPython raises
ZeroDivisionError there (the divisor is checked before the dividend, so
this holds for every dividend interval) — no interval is ever returned. -/
theorem c10_div_by_zero_raises (a b : Interval)
    (h : b.inf = .fin 0 ∨ b.sup = .fin 0) :
    pyDiv a b = .error .zeroDivisionError := by
  unfold pyDiv binOpWrap
  rcases h with h | h
  · rw [h, ediv_zero_divisor]; rfl
  · rcases ediv_cases a.inf b.inf with ⟨v, hv⟩ | he
    · rw [hv, h]
      show ediv a.inf (.fin 0) >>= _ = _
      rw [ediv_zero_divisor]; rfl
    · rw [he]; rfl

/-- Witness for C10: `[1,2] / [0,1]` raises ZeroDivisionError. -/
theorem c10_div_by_zero_raises_witness :
    pyDiv (mkClosed 1 2) (mkClosed 0 1) = .error .zeroDivisionError :=
  c10_div_by_zero_raises (mkClosed 1 2) (mkClosed 0 1) (Or.inl rfl)

/-- C3 counterexample.  The claim says every constructor-produced interval
has an infinite-bound side forced open; but `Interval(-inf, -inf,
Endnotes.CLOSED)` comes out with `right_open = false` although its supremum
is -infinity: `right_bounded()` tests only `sup < +inf`, which -infinity
satisfies, so the right side is never forced open. -/
theorem c3_counterexample :
    intervalNew .ninf .ninf .CLOSED none none = .ok ⟨.ninf, .ninf, true, false⟩
    ∧ isInfinite (ExtQ.ninf) = true := by
  decide

/-- C3 amended: for every constructor-produced interval that is not a
degenerate point (`inf ≠ sup`), a side whose bound is the corresponding
infinity is normalized open — `inf = -∞` forces `left_open = true` and
`sup = +∞` forces `right_open = true`, regardless of the requested mode or
explicit flags.  (In the non-degenerate case `inf = +∞` / `sup = -∞` are
impossible because the constructor asserts `inf <= sup`.) -/
theorem c3_amended (inf sup : ExtQ) (mode : Endnotes) (lo ro : Option Bool)
    (r : Interval) (hok : intervalNew inf sup mode lo ro = .ok r)
    (hne : inf ≠ sup) :
    (inf = .ninf → r.left_open = true) ∧ (sup = .pinf → r.right_open = true) := by
  unfold intervalNew at hok
  by_cases hle : ele inf sup = true
  · rw [if_pos hle] at hok
    injection hok with hr
    subst hr
    constructor
    · intro hinf
      subst hinf
      have hne2 : eeq ExtQ.ninf sup = false := by
        cases sup <;> simp_all [eeq]
      simp [emptyF, hne2, egt, elt]
    · intro hsup
      subst hsup
      have hne2 : eeq inf ExtQ.pinf = false := by
        cases inf <;> simp_all [eeq]
      simp [emptyF, hne2, elt]
  · rw [if_neg hle] at hok
    exact absurd hok (by simp)

/-- Witness for C3 amended: `Interval(-inf, 5, Endnotes.CLOSED)` still has
`left_open = true`, the in-particular case of the claim. -/
theorem c3_amended_witness :
    ∃ r : Interval, intervalNew .ninf (.fin 5) .CLOSED none none = .ok r
      ∧ r.left_open = true :=
  ⟨⟨.ninf, .fin 5, true, false⟩, by decide,
    (c3_amended .ninf (.fin 5) .CLOSED none none ⟨.ninf, .fin 5, true, false⟩
      (by decide) (by decide)).1 rfl⟩

lemma okBind {ε α β : Type} (x : α) (f : α → Except ε β) :
    (Except.ok x >>= f) = f x := rfl

lemma errBind {ε α β : Type} (e : ε) (f : α → Except ε β) :
    ((Except.error e : Except ε α) >>= f) = .error e := rfl

/-- C2.  Claim: log (base > 1) of an interval with `inf <= 0 < sup` is an
interval with lower bound -∞ and upper bound `log(sup)`; in particular
`log(Interval(-1,4))` is `(-inf, log 4]`.  `Interval.log`
(src/src/interval.py) does exactly that (first conjunct).  But the free
function `log` of src/inrith/math.py flips the sign — its lambda computes
`math.copysign(1., base - 1)*math.inf`, which is **plus** infinity for
base > 1 (src/src uses `1 - base`), so its per-interval `ifunc` core yields
`[log 4, +inf)` (second conjunct); the function then raises TypeError
anyway at the write-back `i_cpy[idx] = ...` because class Interval defines
no `__setitem__` (third conjunct). -/
theorem c2_log_eval (logf : ℚ → ℚ → ℚ) (base : ℚ) (hb : 1 < base) :
    intervalLog logf base (mkClosed (-1) 4)
      = .ok ⟨.ninf, .fin (logf 4 base), true, false⟩
    ∧ inrithLogCore logf base (mkClosed (-1) 4)
      = .ok ⟨.fin (logf 4 base), .pinf, false, true⟩
    ∧ inrithLog logf base (mkClosed (-1) 4) = .error .typeError := by
  have h0 : ¬(base ≤ 0) := by linarith
  have h1 : base ≠ 1 := by linarith
  have h2 : 1 - base < 0 := by linarith
  have h3 : ¬(base - 1 < 0) := by linarith
  have hm : mathLog logf (.fin 4) base = .ok (.fin (logf 4 base)) := by
    unfold mathLog
    rw [if_neg h0, if_neg h1]
    show (if (0:ℚ) < 4 then (Except.ok (ExtQ.fin (logf 4 base)) : Except PyErr ExtQ)
          else .error .valueError) = .ok (.fin (logf 4 base))
    rw [if_pos (by norm_num)]
  have hcore : inrithLogCore logf base (mkClosed (-1) 4)
      = .ok ⟨.fin (logf 4 base), .pinf, false, true⟩ := by
    have hl1 : inrithLogLam logf base (ExtQ.fin (-1)) = .ok .pinf := by
      unfold inrithLogLam
      rw [if_neg (by decide), if_neg h3]
    have hl2 : inrithLogLam logf base (ExtQ.fin 4) = .ok (.fin (logf 4 base)) := by
      unfold inrithLogLam
      rw [if_pos (by decide)]
      exact hm
    unfold inrithLogCore ifuncWrap
    rw [show (mkClosed (-1) 4).inf = ExtQ.fin (-1) from rfl,
        show (mkClosed (-1) 4).sup = ExtQ.fin 4 from rfl, hl1, okBind, hl2, okBind]
    rfl
  refine ⟨?_, hcore, ?_⟩
  · unfold intervalLog
    rw [if_pos (by decide), if_pos h2,
        show (mkClosed (-1) 4).sup = ExtQ.fin 4 from rfl, hm, okBind]
    rfl
  · unfold inrithLog
    rw [hcore, okBind]

/-- Witness for C2: the evaluation at the uninterpreted log instantiated by
the constant-7 function and base 2. -/
theorem c2_log_eval_witness :
    intervalLog (fun _ _ => 7) 2 (mkClosed (-1) 4)
      = .ok ⟨.ninf, .fin 7, true, false⟩
    ∧ inrithLogCore (fun _ _ => 7) 2 (mkClosed (-1) 4)
      = .ok ⟨.fin 7, .pinf, false, true⟩
    ∧ inrithLog (fun _ _ => 7) 2 (mkClosed (-1) 4) = .error .typeError :=
  c2_log_eval (fun _ _ => 7) 2 (by norm_num)

/-- C4 counterexample.  The claim states the result openness of a binary
operation is exactly the OR of the operand opennesses on each side; but for
`Interval(0.0, 0.0) - Interval(0.0, inf)` the minimum of the 4 pointwise
differences is -∞, and the constructor's normalization then forces
`left_open = true` even though both operands have `left_open = false`. -/
theorem c4_counterexample :
    pySub (mkClosed 0 0) ⟨.fin 0, .pinf, false, true⟩
      = .ok ⟨.ninf, .fin 0, true, true⟩
    ∧ ((mkClosed 0 0).left_open
        || (Interval.left_open ⟨.fin 0, .pinf, false, true⟩)) = false := by
  constructor
  · have hs : esub (ExtQ.fin 0) (ExtQ.fin 0) = .ok (.fin 0) := by
      simp only [esub, Except.ok.injEq, ExtQ.fin.injEq]
      norm_num
    unfold pySub binOpWrap
    rw [show (mkClosed 0 0).inf = ExtQ.fin 0 from rfl,
        show (mkClosed 0 0).sup = ExtQ.fin 0 from rfl]
    rw [show (Interval.inf ⟨.fin 0, .pinf, false, true⟩) = ExtQ.fin 0 from rfl,
        show (Interval.sup ⟨.fin 0, .pinf, false, true⟩) = ExtQ.pinf from rfl]
    rw [hs]
    decide
  · rfl

lemma normLeft (m M : ExtQ) (LO RO : Bool) (hle : ele m M = true) :
    (LO || !(egt m .ninf || emptyF m M LO RO)) = LO
    ∨ ((LO || !(egt m .ninf || emptyF m M LO RO)) = true ∧ m = .ninf) := by
  cases h : (egt m .ninf || emptyF m M LO RO) with
  | true => left; simp
  | false =>
    right
    refine ⟨by simp, ?_⟩
    cases m with
    | nan => simp [ele] at hle
    | ninf => rfl
    | fin q => simp [egt, elt] at h
    | pinf => simp [egt, elt] at h

lemma normRight (m M : ExtQ) (l1 RO : Bool) (hle : ele m M = true) :
    (RO || !(elt M .pinf || emptyF m M l1 RO)) = RO
    ∨ ((RO || !(elt M .pinf || emptyF m M l1 RO)) = true ∧ M = .pinf) := by
  cases h : (elt M .pinf || emptyF m M l1 RO) with
  | true => left; simp
  | false =>
    right
    refine ⟨by simp, ?_⟩
    cases M with
    | nan => cases m <;> simp [ele] at hle
    | pinf => rfl
    | fin q => simp [elt] at h
    | ninf => simp [elt] at h

/-- C4 amended: whenever a binary operation on intervals returns (none of
the 4 pointwise applications raises and the bounds pass the constructor's
assertion), the result's infimum/supremum are the min/max of the 4
pointwise values, and each openness flag is the OR of the operand flags on
that side except that a side whose resulting bound is the corresponding
infinity is forced open by the constructor's normalization.  The
in-particular cases hold: `[1,2]+[3,4] = [4,6]` and `[1,2]*[3,4] = [3,8]`,
closed since the operands are closed. -/
theorem c4_amended :
    (∀ (f : ExtQ → ExtQ → Except PyErr ExtQ) (lhs rhs : Interval)
      (v1 v2 v3 v4 : ExtQ) (r : Interval),
      f lhs.inf rhs.inf = .ok v1 → f lhs.inf rhs.sup = .ok v2 →
      f lhs.sup rhs.inf = .ok v3 → f lhs.sup rhs.sup = .ok v4 →
      binOpWrap f lhs rhs = .ok r →
      r.inf = pymin v1 [v2, v3, v4] ∧ r.sup = pymax v1 [v2, v3, v4]
      ∧ (r.left_open = (lhs.left_open || rhs.left_open)
          ∨ (r.left_open = true ∧ r.inf = .ninf))
      ∧ (r.right_open = (lhs.right_open || rhs.right_open)
          ∨ (r.right_open = true ∧ r.sup = .pinf)))
    ∧ pyAdd (mkClosed 1 2) (mkClosed 3 4) = .ok (mkClosed 4 6)
    ∧ pyMul (mkClosed 1 2) (mkClosed 3 4) = .ok (mkClosed 3 8) := by
  refine ⟨?_, ?_, ?_⟩
  · intro f lhs rhs v1 v2 v3 v4 r h1 h2 h3 h4 hok
    unfold binOpWrap at hok
    rw [h1, okBind, h2, okBind, h3, okBind, h4, okBind] at hok
    unfold intervalNew at hok
    by_cases hle : ele (pymin v1 [v2, v3, v4]) (pymax v1 [v2, v3, v4]) = true
    · rw [if_pos hle] at hok
      injection hok with hr
      subst hr
      exact ⟨rfl, rfl, normLeft _ _ _ _ hle, normRight _ _ _ _ hle⟩
    · rw [if_neg hle] at hok
      exact absurd hok (by simp)
  · have ha1 : eadd (ExtQ.fin 1) (ExtQ.fin 3) = .ok (.fin 4) := by
      simp only [eadd, Except.ok.injEq, ExtQ.fin.injEq]; norm_num
    have ha2 : eadd (ExtQ.fin 1) (ExtQ.fin 4) = .ok (.fin 5) := by
      simp only [eadd, Except.ok.injEq, ExtQ.fin.injEq]; norm_num
    have ha3 : eadd (ExtQ.fin 2) (ExtQ.fin 3) = .ok (.fin 5) := by
      simp only [eadd, Except.ok.injEq, ExtQ.fin.injEq]; norm_num
    have ha4 : eadd (ExtQ.fin 2) (ExtQ.fin 4) = .ok (.fin 6) := by
      simp only [eadd, Except.ok.injEq, ExtQ.fin.injEq]; norm_num
    unfold pyAdd binOpWrap
    rw [show (mkClosed 1 2).inf = ExtQ.fin 1 from rfl,
        show (mkClosed 1 2).sup = ExtQ.fin 2 from rfl,
        show (mkClosed 3 4).inf = ExtQ.fin 3 from rfl,
        show (mkClosed 3 4).sup = ExtQ.fin 4 from rfl]
    rw [ha1, ha2, ha3, ha4]
    decide
  · have hm1 : emul (ExtQ.fin 1) (ExtQ.fin 3) = .ok (.fin 3) := by
      simp only [emul, Except.ok.injEq, ExtQ.fin.injEq]; norm_num
    have hm2 : emul (ExtQ.fin 1) (ExtQ.fin 4) = .ok (.fin 4) := by
      simp only [emul, Except.ok.injEq, ExtQ.fin.injEq]; norm_num
    have hm3 : emul (ExtQ.fin 2) (ExtQ.fin 3) = .ok (.fin 6) := by
      simp only [emul, Except.ok.injEq, ExtQ.fin.injEq]; norm_num
    have hm4 : emul (ExtQ.fin 2) (ExtQ.fin 4) = .ok (.fin 8) := by
      simp only [emul, Except.ok.injEq, ExtQ.fin.injEq]; norm_num
    unfold pyMul binOpWrap
    rw [show (mkClosed 1 2).inf = ExtQ.fin 1 from rfl,
        show (mkClosed 1 2).sup = ExtQ.fin 2 from rfl,
        show (mkClosed 3 4).inf = ExtQ.fin 3 from rfl,
        show (mkClosed 3 4).sup = ExtQ.fin 4 from rfl]
    rw [hm1, hm2, hm3, hm4]
    decide

/-- Witness for C4 amended: the general part applied to addition at
`A = [1,2]`, `B = [3,4]` with the 4 pointwise sums 4, 5, 5, 6. -/
theorem c4_amended_witness :
    (Interval.inf (mkClosed 4 6) = pymin (.fin 4) [.fin 5, .fin 5, .fin 6])
    ∧ (Interval.sup (mkClosed 4 6) = pymax (.fin 4) [.fin 5, .fin 5, .fin 6])
    ∧ ((Interval.left_open (mkClosed 4 6)
          = ((mkClosed 1 2).left_open || (mkClosed 3 4).left_open))
        ∨ (Interval.left_open (mkClosed 4 6) = true
            ∧ Interval.inf (mkClosed 4 6) = .ninf))
    ∧ ((Interval.right_open (mkClosed 4 6)
          = ((mkClosed 1 2).right_open || (mkClosed 3 4).right_open))
        ∨ (Interval.right_open (mkClosed 4 6) = true
            ∧ Interval.sup (mkClosed 4 6) = .pinf)) :=
  c4_amended.1 eadd (mkClosed 1 2) (mkClosed 3 4) (.fin 4) (.fin 5) (.fin 5)
    (.fin 6) (mkClosed 4 6)
    (by simp only [mkClosed, eadd, Except.ok.injEq, ExtQ.fin.injEq]; norm_num)
    (by simp only [mkClosed, eadd, Except.ok.injEq, ExtQ.fin.injEq]; norm_num)
    (by simp only [mkClosed, eadd, Except.ok.injEq, ExtQ.fin.injEq]; norm_num)
    (by simp only [mkClosed, eadd, Except.ok.injEq, ExtQ.fin.injEq]; norm_num)
    c4_amended.2.1

lemma ezpow_of_neg_nonneg {x : ExtQ} {n : ℤ} {a : ExtQ}
    (hx : elt x (.fin 0) = true) (hn : n % 2 = 0) (ha : ezpow x n = .ok a) :
    ele (.fin 0) a = true := by
  cases x with
  | nan => simp [elt] at hx
  | pinf => simp [elt] at hx
  | ninf =>
    simp only [ezpow] at ha
    by_cases h0 : n = 0
    · rw [if_pos h0] at ha
      injection ha with ha
      subst ha
      simp [ele]
    · rw [if_neg h0] at ha
      by_cases hpos : 0 < n
      · rw [if_pos hpos] at ha
        injection ha with ha
        subst ha
        rw [if_pos hn]
        rfl
      · rw [if_neg hpos] at ha
        injection ha with ha
        subst ha
        simp [ele]
  | fin q =>
    have hq : q < 0 := by simpa [elt] using hx
    have hq0 : q ≠ 0 := ne_of_lt hq
    simp only [ezpow] at ha
    rw [if_neg hq0] at ha
    injection ha with ha
    subst ha
    have : (0:ℚ) ≤ q ^ n := (Int.even_iff.mpr hn).zpow_nonneg q
    simpa [ele] using this

lemma ezpow_of_pos_nonneg {x : ExtQ} {n : ℤ} {b : ExtQ}
    (hx : elt (.fin 0) x = true) (hb : ezpow x n = .ok b) :
    ele (.fin 0) b = true := by
  cases x with
  | nan => simp [elt] at hx
  | ninf => simp [elt] at hx
  | pinf =>
    simp only [ezpow] at hb
    by_cases h0 : n = 0
    · rw [if_pos h0] at hb
      injection hb with hb
      subst hb
      simp [ele]
    · rw [if_neg h0] at hb
      by_cases hpos : 0 < n
      · rw [if_pos hpos] at hb
        injection hb with hb
        subst hb
        rfl
      · rw [if_neg hpos] at hb
        injection hb with hb
        subst hb
        simp [ele]
  | fin q =>
    have hq : 0 < q := by simpa [elt] using hx
    have hq0 : q ≠ 0 := (ne_of_lt hq).symm
    simp only [ezpow] at hb
    rw [if_neg hq0] at hb
    injection hb with hb
    subst hb
    have : (0:ℚ) ≤ q ^ n := le_of_lt (zpow_pos hq n)
    simpa [ele] using this

/-- C6.  For every interval straddling zero (`inf < 0 and sup > 0`) and
every even integer exponent, `__pow__` returns
`Interval(0, max(inf**n, sup**n))`: the lower bound is 0 and it is closed
(`left_open = false`) unconditionally, even when the source interval's
endpoints were open (the openness flags of the source are never consulted
in this branch).  The hypotheses `ha`/`hb` name the two Python power
values (which never raise here since both bases are nonzero). -/
theorem c6_pow_even_straddle (i : Interval) (n : ℤ) (a b : ExtQ)
    (h1 : elt i.inf (.fin 0) = true) (h2 : elt (.fin 0) i.sup = true)
    (h3 : n % 2 = 0) (ha : ezpow i.inf n = .ok a) (hb : ezpow i.sup n = .ok b) :
    pyPow i n = .ok ⟨.fin 0, pymax2 a b, false, !(elt (pymax2 a b) .pinf)⟩ := by
  have hA := ezpow_of_neg_nonneg h1 h3 ha
  have hB := ezpow_of_pos_nonneg h2 hb
  have hM : ele (.fin 0) (pymax2 a b) = true := by
    unfold pymax2
    split <;> assumption
  unfold pyPow
  rw [if_pos (by simp [h1, h2, h3])]
  rw [ha, okBind, hb, okBind]
  unfold intervalNew
  rw [if_pos (by
    rcases hMv : pymax2 a b with _ | _ | q | _ <;> rw [hMv] at hM <;>
      simp_all [ele])]
  rcases hMv : pymax2 a b with _ | _ | q | _ <;> rw [hMv] at hM <;>
    simp_all [ele, handleEndnotes, isInfinite, emptyF, eeq, egt, elt]

/-- Witness for C6: `Interval(-1, 2, Endnotes.OPENED) ** 2 = [0, 4]`, with
the lower bound closed although the source interval was fully open. -/
theorem c6_pow_even_straddle_witness :
    pyPow ⟨.fin (-1), .fin 2, true, true⟩ 2 = .ok ⟨.fin 0, .fin 4, false, false⟩ := by
  have ha : ezpow (.fin (-1)) 2 = .ok (.fin 1) := by
    simp only [ezpow, Except.ok.injEq, ExtQ.fin.injEq]
    norm_num
  have hb : ezpow (.fin 2) 2 = .ok (.fin 4) := by
    simp only [ezpow, Except.ok.injEq, ExtQ.fin.injEq]
    norm_num
  have h := c6_pow_even_straddle ⟨.fin (-1), .fin 2, true, true⟩ 2 (.fin 1)
    (.fin 4) (by decide) (by decide) (by decide) ha hb
  rw [h]
  rfl

lemma icontains_dest {i : Interval} {v : ExtQ} (h : icontains i v = true) :
    ele i.inf v = true ∧ ele v i.sup = true
    ∧ (eeq v i.inf = true → i.left_open = false)
    ∧ (eeq v i.sup = true → i.right_open = false) := by
  simp only [icontains, Bool.and_eq_true, Bool.not_eq_true'] at h
  obtain ⟨⟨⟨h1, h2⟩, h3⟩, h4⟩ := h
  refine ⟨h1, h2, ?_, ?_⟩
  · intro he
    rw [he] at h3
    simpa using h3
  · intro he
    rw [he] at h4
    simpa using h4

lemma icontains_intro {i : Interval} {v : ExtQ}
    (h1 : ele i.inf v = true) (h2 : ele v i.sup = true)
    (h3 : eeq v i.inf = true → i.left_open = false)
    (h4 : eeq v i.sup = true → i.right_open = false) : icontains i v = true := by
  simp only [icontains, Bool.and_eq_true, Bool.not_eq_true']
  refine ⟨⟨⟨h1, h2⟩, ?_⟩, ?_⟩
  · cases he : eeq v i.inf
    · simp
    · simp [h3 he]
  · cases he : eeq v i.sup
    · simp
    · simp [h4 he]

lemma ileq_dest {a b : Interval} (h : ileq a b = true) :
    (icontains b a.inf = true
      ∨ (a.inf = b.inf ∧ a.inf ≠ .nan ∧ a.left_open = b.left_open))
    ∧ (icontains b a.sup = true
      ∨ (a.sup = b.sup ∧ a.sup ≠ .nan ∧ a.right_open = b.right_open)) := by
  simp only [ileq, Bool.and_eq_true, Bool.or_eq_true, beq_iff_eq] at h
  obtain ⟨h1, h2⟩ := h
  constructor
  · rcases h1 with h1 | ⟨hy, hz⟩
    · exact Or.inl h1
    · obtain ⟨he, hn⟩ := (eeq_true_iff _ _).mp hy
      exact Or.inr ⟨he, hn, hz⟩
  · rcases h2 with h2 | ⟨hy, hz⟩
    · exact Or.inl h2
    · obtain ⟨he, hn⟩ := (eeq_true_iff _ _).mp hy
      exact Or.inr ⟨he, hn, hz⟩

lemma ileq_intro {a b : Interval}
    (h1 : icontains b a.inf = true
      ∨ (a.inf = b.inf ∧ a.inf ≠ .nan ∧ a.left_open = b.left_open))
    (h2 : icontains b a.sup = true
      ∨ (a.sup = b.sup ∧ a.sup ≠ .nan ∧ a.right_open = b.right_open)) :
    ileq a b = true := by
  simp only [ileq, Bool.and_eq_true, Bool.or_eq_true, beq_iff_eq]
  constructor
  · rcases h1 with h1 | ⟨he, hn, hz⟩
    · exact Or.inl h1
    · exact Or.inr ⟨(eeq_true_iff _ _).mpr ⟨he, hn⟩, hz⟩
  · rcases h2 with h2 | ⟨he, hn, hz⟩
    · exact Or.inl h2
    · exact Or.inr ⟨(eeq_true_iff _ _).mpr ⟨he, hn⟩, hz⟩

lemma bool_true_of_not_false {x : Bool} (h : ¬x = false) : x = true := by
  cases x
  · exact absurd rfl h
  · rfl

/-- Transport of membership along the subset conditions: if `v ∈ b` and both
endpoint conditions of `b <= c` hold, then `v ∈ c`. -/
lemma mem_trans {b c : Interval} {v : ExtQ}
    (H2 : icontains c b.inf = true
      ∨ (b.inf = c.inf ∧ b.inf ≠ .nan ∧ b.left_open = c.left_open))
    (H3 : icontains c b.sup = true
      ∨ (b.sup = c.sup ∧ b.sup ≠ .nan ∧ b.right_open = c.right_open))
    (H1 : icontains b v = true) : icontains c v = true := by
  obtain ⟨e1, e2, e3, e4⟩ := icontains_dest H1
  have hci : ele c.inf b.inf = true ∨ c.inf = b.inf := by
    rcases H2 with hm | ⟨he, _, _⟩
    · exact Or.inl (icontains_dest hm).1
    · exact Or.inr he.symm
  have hcs : ele b.sup c.sup = true ∨ b.sup = c.sup := by
    rcases H3 with hm | ⟨he, _, _⟩
    · exact Or.inl (icontains_dest hm).2.1
    · exact Or.inr he
  have g1 : ele c.inf v = true := by
    rcases hci with h | h
    · exact ele_trans h e1
    · rw [h]; exact e1
  have g2 : ele v c.sup = true := by
    rcases hcs with h | h
    · exact ele_trans e2 h
    · rw [← h]; exact e2
  refine icontains_intro g1 g2 ?_ ?_
  · intro he
    obtain ⟨hv, hvnn⟩ := (eeq_true_iff _ _).mp he
    have hbi : b.inf = c.inf := by
      rcases hci with h | h
      · exact ele_antisymm (hv ▸ e1) h
      · exact h.symm
    by_contra hclo
    have hclo : c.left_open = true := bool_true_of_not_false hclo
    rcases H2 with hm | ⟨he2, _, hlo2⟩
    · have hq : eeq b.inf c.inf = true :=
        (eeq_true_iff _ _).mpr ⟨hbi, by rw [hbi, ← hv]; exact hvnn⟩
      have := (icontains_dest hm).2.2.1 hq
      rw [hclo] at this
      exact Bool.noConfusion this
    · have hbl : b.left_open = true := by rw [hlo2]; exact hclo
      have hq : eeq v b.inf = true :=
        (eeq_true_iff _ _).mpr ⟨hv.trans he2.symm, hvnn⟩
      have := e3 hq
      rw [hbl] at this
      exact Bool.noConfusion this
  · intro he
    obtain ⟨hv, hvnn⟩ := (eeq_true_iff _ _).mp he
    have hbs : b.sup = c.sup := by
      rcases hcs with h | h
      · exact ele_antisymm h (hv ▸ e2)
      · exact h
    by_contra hcro
    have hcro : c.right_open = true := bool_true_of_not_false hcro
    rcases H3 with hm | ⟨he2, _, hro2⟩
    · have hq : eeq b.sup c.sup = true :=
        (eeq_true_iff _ _).mpr ⟨hbs, by rw [hbs, ← hv]; exact hvnn⟩
      have := (icontains_dest hm).2.2.2 hq
      rw [hcro] at this
      exact Bool.noConfusion this
    · have hbr : b.right_open = true := by rw [hro2]; exact hcro
      have hq : eeq v b.sup = true :=
        (eeq_true_iff _ _).mpr ⟨hv.trans he2.symm, hvnn⟩
      have := e4 hq
      rw [hbr] at this
      exact Bool.noConfusion this

lemma ileq_refl (a : Interval) (h : NoNan a) : ileq a a = true := by
  obtain ⟨h1, h2⟩ := h
  apply ileq_intro
  · exact Or.inr ⟨rfl, h1, rfl⟩
  · exact Or.inr ⟨rfl, h2, rfl⟩

lemma ileq_antisymm {a b : Interval} (hab : ileq a b = true)
    (hba : ileq b a = true) : a = b := by
  obtain ⟨habL, habR⟩ := ileq_dest hab
  obtain ⟨hbaL, hbaR⟩ := ileq_dest hba
  have hinf : a.inf = b.inf ∧ a.left_open = b.left_open := by
    rcases habL with hm | ⟨he, _, hlo⟩
    · rcases hbaL with hm2 | ⟨he2, _, hlo2⟩
      · obtain ⟨e1, _, e3, _⟩ := icontains_dest hm
        obtain ⟨f1, _, f3, _⟩ := icontains_dest hm2
        have heq : a.inf = b.inf := ele_antisymm f1 e1
        have hann : a.inf ≠ .nan := (ele_nonnan f1).1
        have hbnn : b.inf ≠ .nan := heq ▸ hann
        have hbl : b.left_open = false :=
          e3 ((eeq_true_iff _ _).mpr ⟨heq, hann⟩)
        have hal : a.left_open = false :=
          f3 ((eeq_true_iff _ _).mpr ⟨heq.symm, hbnn⟩)
        exact ⟨heq, by rw [hal, hbl]⟩
      · exact ⟨he2.symm, hlo2.symm⟩
    · exact ⟨he, hlo⟩
  have hsup : a.sup = b.sup ∧ a.right_open = b.right_open := by
    rcases habR with hm | ⟨he, _, hro⟩
    · rcases hbaR with hm2 | ⟨he2, _, hro2⟩
      · obtain ⟨_, e2, _, e4⟩ := icontains_dest hm
        obtain ⟨_, f2, _, f4⟩ := icontains_dest hm2
        have heq : a.sup = b.sup := ele_antisymm e2 f2
        have hann : a.sup ≠ .nan := (ele_nonnan e2).1
        have hbnn : b.sup ≠ .nan := heq ▸ hann
        have hbr : b.right_open = false :=
          e4 ((eeq_true_iff _ _).mpr ⟨heq, hann⟩)
        have har : a.right_open = false :=
          f4 ((eeq_true_iff _ _).mpr ⟨heq.symm, hbnn⟩)
        exact ⟨heq, by rw [har, hbr]⟩
      · exact ⟨he2.symm, hro2.symm⟩
    · exact ⟨he, hro⟩
  obtain ⟨q1, q2⟩ := hinf
  obtain ⟨q3, q4⟩ := hsup
  cases a with
  | mk ai as al ar =>
    cases b with
    | mk bi bs bl br => simp_all

lemma ileq_trans {a b c : Interval} (hab : ileq a b = true)
    (hbc : ileq b c = true) : ileq a c = true := by
  obtain ⟨hL, hR⟩ := ileq_dest hab
  obtain ⟨hL2, hR2⟩ := ileq_dest hbc
  apply ileq_intro
  · rcases hL with hm | ⟨he, hnn, hlo⟩
    · exact Or.inl (mem_trans hL2 hR2 hm)
    · rcases hL2 with hm2 | ⟨he2, hnn2, hlo2⟩
      · exact Or.inl (he ▸ hm2)
      · exact Or.inr ⟨he.trans he2, hnn, hlo.trans hlo2⟩
  · rcases hR with hm | ⟨he, hnn, hro⟩
    · exact Or.inl (mem_trans hL2 hR2 hm)
    · rcases hR2 with hm2 | ⟨he2, hnn2, hro2⟩
      · exact Or.inl (he ▸ hm2)
      · exact Or.inr ⟨he.trans he2, hnn, hro.trans hro2⟩

/-- C5.  The subset relation `a <= b` of `Interval.__le__` is a partial
order on Intervals: reflexive (on every interval the constructor can
produce, i.e. with non-NaN bounds — any comparison with NaN is false, so
the assert makes NaN bounds unconstructible), antisymmetric with respect to
the four-field structural equality of `Interval.__eq__`, and transitive. -/
theorem c5_subset_partial_order :
    (∀ a : Interval, NoNan a → ileq a a = true)
    ∧ (∀ a b : Interval, ileq a b = true → ileq b a = true → a = b)
    ∧ (∀ a b c : Interval,
        ileq a b = true → ileq b c = true → ileq a c = true) :=
  ⟨fun _ h => ileq_refl _ h,
   fun _ _ hab hba => ileq_antisymm hab hba,
   fun _ _ _ hab hbc => ileq_trans hab hbc⟩

/-- Witness for C5: reflexivity applied at `[1,2]`, antisymmetry at the
pair `[1,2]`, `[1,2]`, and transitivity along `[1,2] <= [0,3] <= [-1,4]`. -/
theorem c5_subset_partial_order_witness :
    ileq (mkClosed 1 2) (mkClosed 1 2) = true
    ∧ mkClosed 1 2 = mkClosed 1 2
    ∧ ileq (mkClosed 1 2) (mkClosed (-1) 4) = true :=
  ⟨c5_subset_partial_order.1 (mkClosed 1 2) ⟨by decide, by decide⟩,
   c5_subset_partial_order.2.1 (mkClosed 1 2) (mkClosed 1 2)
     (by decide) (by decide),
   c5_subset_partial_order.2.2 (mkClosed 1 2) (mkClosed 0 3) (mkClosed (-1) 4)
     (by decide) (by decide)⟩

end Inrith

